import Mathlib

/-!
Verification of the GeoJSON → SQLite address-extraction pipeline
(`main.go` of go-osmium-extract).

The development shallowly embeds the pipeline's core:
  * a model of decoded JSON values and of the token stream that
    `encoding/json.Decoder` presents to `processGeoJSON`;
  * the token-scanning loop of `processGeoJSON` that locates the
    `features` member and decodes one feature value at a time;
  * `extractAddressData`, including the per-geometry-type coordinate
    unmarshalling, the city fallback chain and Go's `%v` formatting;
  * the batch loader (500000-record / time-ceiling windowing, final
    flush, `INSERT OR IGNORE` bulk insert in 500-row sub-batches);
  * the FTS5 `unicode61` tokenizer configuration and the ranked,
    highlighted, LIMIT-5 search.

JSON numbers are modelled as rationals: the pipeline only copies
coordinate values and compares them with zero, it never computes with
them, so no IEEE rounding behaviour is exercised by the statements
proved here.
-/

namespace OsmExtract

/-- A JSON token as returned by Go's `json.Decoder.Token`: delimiters,
strings, numbers, booleans and null (`json.Delim`, `string`, `float64`,
`bool`, `nil`). -/
inductive JToken where
  | objOpen
  | objClose
  | arrOpen
  | arrClose
  | str (s : String)
  | num (q : ℚ)
  | jbool (b : Bool)
  | null
deriving DecidableEq

mutual
/-- A decoded JSON value: what `encoding/json` produces for the empty
interface — nil, bool, float64, string, slice, string-keyed map. -/
inductive JValue where
  | null
  | jbool (b : Bool)
  | num (q : ℚ)
  | str (s : String)
  | arr (xs : JArr)
  | obj (fs : JObj)
deriving DecidableEq

/-- The elements of a JSON array, as its own inductive so that mutual
structural recursion and induction over nested values is available. -/
inductive JArr where
  | nil
  | cons (v : JValue) (rest : JArr)
deriving DecidableEq

/-- The members of a JSON object, in document order (duplicates kept:
Go's map decoding makes the later duplicate win). -/
inductive JObj where
  | nil
  | cons (k : String) (v : JValue) (rest : JObj)
deriving DecidableEq
end

def JArr.ofList : List JValue → JArr
  | [] => .nil
  | v :: vs => .cons v (JArr.ofList vs)

def JArr.toList : JArr → List JValue
  | .nil => []
  | .cons v vs => v :: JArr.toList vs

def JObj.ofList : List (String × JValue) → JObj
  | [] => .nil
  | (k, v) :: fs => .cons k v (JObj.ofList fs)

/-- Lookup in a decoded Go map: later duplicate keys overwrite earlier
ones, and a key bound to JSON `null` is present (with a nil value). -/
def JObj.get : JObj → String → Option JValue
  | .nil, _ => none
  | .cons k v rest, key =>
    match JObj.get rest key with
    | some r => some r
    | none => if k = key then some v else none

/-- The first member with the given key, in document order (used by the
spec-side description of the `features` scan). -/
def JObj.firstMember : JObj → String → Option JValue
  | .nil, _ => none
  | .cons k v rest, key => if k = key then some v else JObj.firstMember rest key

mutual
/-- The token stream `json.Decoder.Token` yields for a value: the
decoder descends into compound values, returning every delimiter and
primitive (keys and values alike); colons and commas are elided. -/
def tokensV : JValue → List JToken
  | .null => [.null]
  | .jbool b => [.jbool b]
  | .num q => [.num q]
  | .str s => [.str s]
  | .arr xs => .arrOpen :: (tokensL xs ++ [.arrClose])
  | .obj fs => .objOpen :: (tokensF fs ++ [.objClose])

def tokensL : JArr → List JToken
  | .nil => []
  | .cons v vs => tokensV v ++ tokensL vs

def tokensF : JObj → List JToken
  | .nil => []
  | .cons k v fs => .str k :: (tokensV v ++ tokensF fs)
end

def isCloseTok : JToken → Bool
  | .arrClose => true
  | .objClose => true
  | _ => false

/-- `decoder.More()`: the next element test. Go peeks at the next
non-space character and reports whether it is neither a closing
bracket nor a closing brace; on a well-formed token stream this is
exactly: the next token exists and is not a closing delimiter. -/
def moreTok : List JToken → Bool
  | [] => false
  | t :: _ => !isCloseTok t

/-- Consume the remainder of a compound value opened at depth `d`:
collect tokens until the matching closing delimiter. Returns the
collected span (closing delimiter included) and the rest. -/
def spanAux : List JToken → Nat → Option (List JToken × List JToken)
  | [], _ => none
  | t :: rest, d =>
    match t with
    | .arrOpen => (spanAux rest (d + 1)).map fun p => (t :: p.1, p.2)
    | .objOpen => (spanAux rest (d + 1)).map fun p => (t :: p.1, p.2)
    | .arrClose =>
      if d ≤ 1 then some ([t], rest)
      else (spanAux rest (d - 1)).map fun p => (t :: p.1, p.2)
    | .objClose =>
      if d ≤ 1 then some ([t], rest)
      else (spanAux rest (d - 1)).map fun p => (t :: p.1, p.2)
    | _ => (spanAux rest d).map fun p => (t :: p.1, p.2)

/-- `decoder.Decode`: read exactly one complete JSON value off the
token stream (Go consumes the whole value even when unmarshalling it
into the target type then fails). Returns the value's token span and
the remaining stream. -/
def consumeOne : List JToken → Option (List JToken × List JToken)
  | [] => none
  | t :: rest =>
    match t with
    | .arrOpen => (spanAux rest 1).map fun p => (t :: p.1, p.2)
    | .objOpen => (spanAux rest 1).map fun p => (t :: p.1, p.2)
    | .arrClose => none
    | .objClose => none
    | _ => some ([t], rest)

/-- The inner loop of `processGeoJSON` — for each `decoder.More()`,
one `decoder.Decode(&feature)`. Returns the list of value spans
passed to `Decode` and the remaining stream. `fuel` dominates the
number of iterations; every statement below supplies enough. -/
def innerAux : Nat → List JToken → List (List JToken) × List JToken
  | 0, ts => ([], ts)
  | fuel + 1, ts =>
    if moreTok ts then
      match consumeOne ts with
      | some p =>
        let q := innerAux fuel p.2
        (p.1 :: q.1, q.2)
      | none => ([], ts)
    else ([], ts)

/-- The outer loop of `processGeoJSON`: while `decoder.More()`, read a
token; if it equals the string "features", read one more token (the
expected opening bracket) and run the inner loop. The comparison fires
on ANY string token equal to "features" (key or value, at any nesting
depth), and the loop ends as soon as a closing delimiter is at the
head. -/
def outerAux : Nat → List JToken → List (List JToken)
  | 0, _ => []
  | fuel + 1, ts =>
    if moreTok ts then
      match ts with
      | [] => []
      | t :: rest =>
        if t = JToken.str "features" then
          match rest with
          | [] => []
          | _ :: rest2 =>
            let p := innerAux fuel rest2
            p.1 ++ outerAux fuel p.2
        else outerAux fuel rest
    else []

/-- The sequence of value spans `processGeoJSON` hands to
`decoder.Decode(&feature)` for a given document: the first token (the
expected opening brace) is read and discarded, then the outer scan
loop runs. -/
def goDecodeSpans (doc : JValue) : List (List JToken) :=
  match tokensV doc with
  | [] => []
  | _ :: rest => outerAux rest.length rest

/-- The spec's selection rule, stated from its words: the array value
of the top-level member named `features`, found by scanning top-level
keys in document order; each of its elements (and nothing else) is
decoded as a feature. -/
def specSelectedSpans (doc : JValue) : Option (List (List JToken)) :=
  match doc with
  | .obj fs =>
    match JObj.firstMember fs "features" with
    | some (.arr elts) => some ((JArr.toList elts).map tokensV)
    | _ => none
  | _ => none

/-! ### Address extraction (`extractAddressData`) -/

/-- `Geometry`: geometry type tag plus the raw coordinate payload
(`json.RawMessage`); `none` models an absent `coordinates` member,
whose nil raw message makes every `json.Unmarshal` fail. -/
structure Geometry where
  type : String
  coordinates : Option JValue
deriving DecidableEq

/-- `Feature`: the property bag (a decoded string-keyed map) and the
geometry. The GeoJSON `type` tag is carried but never read by the
extractor. -/
structure Feature where
  type : String
  properties : JObj
  geometry : Geometry
deriving DecidableEq

/-- `AddressRecord` as built by `extractAddressData`. -/
structure AddressRecord where
  street : String
  houseNumber : String
  city : String
  lon : ℚ
  lat : ℚ
deriving DecidableEq

/-- `json.Unmarshal` of one element of a `[]float64`: numbers are
taken as-is, a `null` element leaves the zero value in place, anything
else is a type error. -/
def jsonFloatElem : JValue → Option ℚ
  | .num q => some q
  | .null => some 0
  | _ => none

def arrMapM (f : JValue → Option α) : JArr → Option (List α)
  | .nil => some []
  | .cons v vs =>
    match f v, arrMapM f vs with
    | some a, some bs => some (a :: bs)
    | _, _ => none

/-- `json.Unmarshal` into a slice: JSON `null` yields the empty (nil)
slice, an array unmarshals elementwise, anything else is a type error
that leaves the target untouched. -/
def unmarshalList (f : JValue → Option α) : JValue → Option (List α)
  | .null => some []
  | .arr xs => arrMapM f xs
  | _ => none

/-- `[]float64` -/
def unmarshalFloats : JValue → Option (List ℚ) :=
  unmarshalList jsonFloatElem

/-- `[][]float64` -/
def unmarshalFloats2 : JValue → Option (List (List ℚ)) :=
  unmarshalList unmarshalFloats

/-- `[][][]float64` -/
def unmarshalFloats3 : JValue → Option (List (List (List ℚ))) :=
  unmarshalList unmarshalFloats2

/-- `[][][][]float64` -/
def unmarshalFloats4 : JValue → Option (List (List (List (List ℚ)))) :=
  unmarshalList unmarshalFloats3

/-- Modelled from the spec: Go's default textual formatting (`%v`) of
a JSON number decoded as `float64` (`strconv` shortest `g` form); the
Go formatter is library code outside this repository. The rendering is
exact for the integral values these theorems evaluate; non-integral
rationals are rendered `num/den` as a stand-in for the decimal form. -/
def goFormatNum (q : ℚ) : String :=
  if q.den = 1 then toString q.num else toString q.num ++ "/" ++ toString q.den

def sortStrs (l : List String) : List String :=
  l.insertionSort (· ≤ ·)

mutual
/-- Go's `fmt.Sprintf("%v", x)` on a decoded JSON value (library
behaviour, outside this repository's source): a nil interface prints
`<nil>`, strings print verbatim, booleans `true`/`false`, numbers via
`%g`, slices bracketed and space-separated, maps `map[k:v ...]` with
entries sorted (Go sorts by key; sorting the rendered entries agrees
on the key shapes exercised here). -/
def goFormatValue : JValue → String
  | .null => "<nil>"
  | .jbool b => if b then "true" else "false"
  | .num q => goFormatNum q
  | .str s => s
  | .arr xs => "[" ++ String.intercalate " " (goFormatArr xs) ++ "]"
  | .obj fs => "map[" ++ String.intercalate " " (sortStrs (goFormatObj fs)) ++ "]"

def goFormatArr : JArr → List String
  | .nil => []
  | .cons v vs => goFormatValue v :: goFormatArr vs

def goFormatObj : JObj → List String
  | .nil => []
  | .cons k v fs => (k ++ ":" ++ goFormatValue v) :: goFormatObj fs
end

/-- The geometry-type switch of `extractAddressData`: for the four
known types it returns the `(lon, lat)` pair left in the two local
variables — the guarded representative vertex, or `(0, 0)` when the
unmarshal fails or a length guard trips; for any other type the
function returns early (modelled as `none`). -/
def coordinateSwitch (g : Geometry) : Option (ℚ × ℚ) :=
  match g.type with
  | "Point" =>
    some (match g.coordinates.bind unmarshalFloats with
      | some coords =>
        if 2 ≤ coords.length then (coords.getD 0 0, coords.getD 1 0) else (0, 0)
      | none => (0, 0))
  | "LineString" =>
    some (match g.coordinates.bind unmarshalFloats2 with
      | some coords =>
        if 0 < coords.length ∧ 2 ≤ (coords.getD 0 []).length then
          ((coords.getD 0 []).getD 0 0, (coords.getD 0 []).getD 1 0)
        else (0, 0)
      | none => (0, 0))
  | "Polygon" =>
    some (match g.coordinates.bind unmarshalFloats3 with
      | some coords =>
        if 0 < coords.length ∧ 0 < (coords.getD 0 []).length ∧
            2 ≤ ((coords.getD 0 []).getD 0 []).length then
          (((coords.getD 0 []).getD 0 []).getD 0 0,
           ((coords.getD 0 []).getD 0 []).getD 1 0)
        else (0, 0)
      | none => (0, 0))
  | "MultiPolygon" =>
    some (match g.coordinates.bind unmarshalFloats4 with
      | some coords =>
        if 0 < coords.length ∧ 0 < (coords.getD 0 []).length ∧
            0 < ((coords.getD 0 []).getD 0 []).length ∧
            2 ≤ (((coords.getD 0 []).getD 0 []).getD 0 []).length then
          ((((coords.getD 0 []).getD 0 []).getD 0 []).getD 0 0,
           (((coords.getD 0 []).getD 0 []).getD 0 []).getD 1 0)
        else (0, 0)
      | none => (0, 0))
  | _ => none

/-- The `houseNumber` local of `extractAddressData`: the map value of
`addr:housenumber`, which is the nil interface value when the key is
absent (and may also be nil when the key is present with JSON null). -/
def houseNumberValue (f : Feature) : JValue :=
  match f.properties.get "addr:housenumber" with
  | some v => v
  | none => JValue.null

/-- The `city` local of `extractAddressData` after its fallback chain:
`addr:city`, else `addr:town`, else `addr:village`, else the empty
string. -/
def cityValue (f : Feature) : JValue :=
  match f.properties.get "addr:city" with
  | some c => c
  | none =>
    match f.properties.get "addr:town" with
    | some t => t
    | none =>
      match f.properties.get "addr:village" with
      | some v => v
      | none => JValue.str ""

/-- `extractAddressData`: street is required (key presence, value may
be anything including null); city falls back city → town → village →
`""`; a missing house number is the nil interface value; the
coordinate comes from the geometry switch and `(0, 0)` excludes the
feature; all three text fields go through `fmt.Sprintf("%v", ·)`. -/
def extractAddressData (f : Feature) : Option AddressRecord :=
  let properties := f.properties
  let houseNumber : JValue := houseNumberValue f
  let city : JValue := cityValue f
  match properties.get "addr:street" with
  | none => none
  | some street =>
    match coordinateSwitch f.geometry with
    | none => none
    | some (lon, lat) =>
      if lon = 0 ∧ lat = 0 then none
      else
        some { street := goFormatValue street, houseNumber := goFormatValue houseNumber,
               city := goFormatValue city, lon := lon, lat := lat }

/-- The four geometry types the switch handles; any other type tag
takes the `default` branch and excludes the feature. -/
def knownGeometryType (t : String) : Bool :=
  t = "Point" || t = "LineString" || t = "Polygon" || t = "MultiPolygon"

def pairOf : List ℚ → Option (ℚ × ℚ)
  | a :: b :: _ => some (a, b)
  | _ => none

/-- The spec's representative-vertex table, stated from its words: the
point itself for Point, the first vertex for LineString, the first
vertex of the outer ring for Polygon, the first vertex of the outer
ring of the first polygon for MultiPolygon; undefined when a vertex
with two coordinates is not there. -/
def specRepresentativeVertex (g : Geometry) : Option (ℚ × ℚ) :=
  match g.type with
  | "Point" => (g.coordinates.bind unmarshalFloats).bind pairOf
  | "LineString" =>
    ((g.coordinates.bind unmarshalFloats2).bind List.head?).bind pairOf
  | "Polygon" =>
    (((g.coordinates.bind unmarshalFloats3).bind List.head?).bind List.head?).bind pairOf
  | "MultiPolygon" =>
    ((((g.coordinates.bind unmarshalFloats4).bind List.head?).bind
        List.head?).bind List.head?).bind pairOf
  | _ => none

/-! ### FTS5 tokenizer configuration and search

`processGeoJSON` creates the full-text table with
`tokenize="unicode61 remove_diacritics 0 tokenchars '\x2d'"` and
`searchAddresses` queries it with `highlight(..., '<b>', '</b>')`,
`ORDER BY rank LIMIT 5`. The tokenizer and the SQL engine are SQLite
library code, not part of this repository, so they are modelled from
the spec's description, parameterized by the configuration values the
source supplies. -/

/-- The `tokenchars` of the FTS5 configuration: the source writes
`tokenchars '\x2d'` inside a Go raw (backtick) string, and neither Go
raw strings nor SQLite string literals nor the FTS5 option parser
process backslash escapes, so the four characters backslash, `x`,
`2`, `d` — not the hyphen — reach `unicode61` as the extra token
characters. -/
def ftsTokenchars : List Char := ['\\', 'x', '2', 'd']

/-- The `remove_diacritics 0` setting of the FTS5 configuration
string: diacritics are kept. -/
def ftsRemoveDiacritics : Bool := false

/-- Modelled from the spec: the `unicode61` word-character class
(Unicode alphanumerics), restricted to the repertoire exercised here:
ASCII alphanumerics plus the Latin-1 Supplement / Latin Extended-A/B
letters (U+00C0–U+024F, excluding the two signs × U+00D7 and
÷ U+00F7). -/
def isUnicodeWordChar (c : Char) : Bool :=
  c.isAlphanum ||
    (0xC0 ≤ c.toNat && c.toNat ≤ 0x24F && c.toNat ≠ 0xD7 && c.toNat ≠ 0xF7)

/-- A character that continues a token: a word character or a
configured extra token character. -/
def isTokenChar (c : Char) : Bool :=
  isUnicodeWordChar c || ftsTokenchars.contains c

/-- Modelled from the spec: the `remove_diacritics` folding of
`unicode61` on the Latin-1 letters exercised here (`ß` has no
diacritic and is unaffected). Applied only when the configuration
asks for it, which this source does not. -/
def foldDiacritic (c : Char) : Char :=
  if 0xE0 ≤ c.toNat ∧ c.toNat ≤ 0xE5 then 'a'
  else if c.toNat = 0xE7 then 'c'
  else if 0xE8 ≤ c.toNat ∧ c.toNat ≤ 0xEB then 'e'
  else if 0xEC ≤ c.toNat ∧ c.toNat ≤ 0xEF then 'i'
  else if 0xF2 ≤ c.toNat ∧ c.toNat ≤ 0xF6 then 'o'
  else if 0xF9 ≤ c.toNat ∧ c.toNat ≤ 0xFC then 'u'
  else c

/-- Token normalization of `unicode61`: case folding (modelled on the
ASCII range exercised here) and, only when configured, diacritic
removal. -/
def normChar (c : Char) : Char :=
  if ftsRemoveDiacritics then foldDiacritic c.toLower else c.toLower

/-- Longest run of characters whose token-character class equals `b`;
returns the run and the rest. -/
def segAux (b : Bool) : List Char → List Char × List Char
  | [] => ([], [])
  | c :: cs =>
    if isTokenChar c = b then
      let p := segAux b cs
      (c :: p.1, p.2)
    else ([], c :: cs)

def segmentAux : Nat → List Char → List (Bool × List Char)
  | 0, _ => []
  | _, [] => []
  | fuel + 1, c :: cs =>
    let b := isTokenChar c
    let p := segAux b cs
    (b, c :: p.1) :: segmentAux fuel p.2

/-- Split a character list into maximal runs, each tagged with whether
it consists of token characters (each run consumes at least one
character, so the length of the list is enough fuel). -/
def segmentChars (l : List Char) : List (Bool × List Char) :=
  segmentAux l.length l

/-- The tokens `unicode61` (with this source's configuration) emits
for a text: the token-character runs, normalized. -/
def u61Tokenize (s : String) : List String :=
  (segmentChars s.data).filterMap fun seg =>
    if seg.1 then some (String.mk (seg.2.map normChar)) else none

/-- The `highlight(address_fts, i, '<b>', '</b>')` auxiliary function:
the original field text with every token that matches a query token
wrapped in the marker pair. -/
def markerOpen : String := "<b>"

def markerClose : String := "</b>"

def highlightField (qtoks : List String) (s : String) : String :=
  String.join ((segmentChars s.data).map fun seg =>
    let txt := String.mk seg.2
    if seg.1 ∧ qtoks.contains (String.mk (seg.2.map normChar)) then
      markerOpen ++ txt ++ markerClose
    else txt)

/-- `LIMIT 5` of the search query. -/
def searchLimit : Nat := 5

/-- One row of the search result set: the joined primary record, the
three highlighted fields and the relevance rank. -/
structure SearchHit where
  record : AddressRecord
  streetMatch : String
  houseNumberMatch : String
  cityMatch : String
  rank : ℚ
deriving DecidableEq

/-- The tokens of the three mirrored text columns of a row. -/
def rowFieldTokens (r : AddressRecord) : List String :=
  u61Tokenize r.street ++ u61Tokenize r.houseNumber ++ u61Tokenize r.city

/-- Modelled from the spec: `address_fts MATCH query` for the bareword
queries the source issues — every query token must occur in some
mirrored column of the row. -/
def matchesQuery (q : String) (r : AddressRecord) : Bool :=
  (u61Tokenize q).all fun t => (rowFieldTokens r).contains t

def mkHit (rankOf : AddressRecord → ℚ) (q : String) (r : AddressRecord) : SearchHit :=
  let qtoks := u61Tokenize q
  { record := r
    streetMatch := highlightField qtoks r.street
    houseNumberMatch := highlightField qtoks r.houseNumber
    cityMatch := highlightField qtoks r.city
    rank := rankOf r }

/-- Rank order of the result set (`ORDER BY rank`, ascending; FTS5
ranks are more negative for better matches, so ascending is
best-first). -/
def hitLE (a b : SearchHit) : Prop := a.rank ≤ b.rank

instance : DecidableRel hitLE := fun a b =>
  inferInstanceAs (Decidable (a.rank ≤ b.rank))

instance : IsTotal SearchHit hitLE := ⟨fun a b => le_total a.rank b.rank⟩

instance : IsTrans SearchHit hitLE := ⟨fun _ _ _ hab hbc => le_trans hab hbc⟩

/-- Modelled from the spec: the `searchAddresses` query over a
finished store — join each matching fts row back to its primary
record, build the three highlighted fields, order by rank ascending,
return at most `searchLimit` rows. The bm25 scoring function itself is
SQLite internals; it enters only as the abstract `rankOf`. -/
def searchAddresses (rankOf : AddressRecord → ℚ) (db : List AddressRecord)
    (q : String) : List SearchHit :=
  (((db.filter (matchesQuery q)).map (mkHit rankOf q)).insertionSort hitLE).take searchLimit

/-! ### Batch loader (`processGeoJSON` main loop and `bulkInsert`) -/

/-- `batchSize := 500000`. -/
def batchSize : Nat := 500000

/-- `maxRecordsPerBatch := 500`: rows per multi-value INSERT
statement. -/
def maxRecordsPerBatch : Nat := 500

/-- The natural key the `UNIQUE(street, house_number, city)`
constraint deduplicates on; SQLite TEXT comparison under the default
BINARY collation is exact string equality. -/
def naturalKey (r : AddressRecord) : String × String × String :=
  (r.street, r.houseNumber, r.city)

/-- One row of the multi-row `INSERT OR IGNORE` statement: appended
unless a row with the same natural key is already present. -/
def insertOrIgnore (rows : List AddressRecord) (r : AddressRecord) : List AddressRecord :=
  if rows.any fun x => naturalKey x = naturalKey r then rows else rows ++ [r]

/-- `records[i:end]` chunks of width `maxRecordsPerBatch = 500`, as
`bulkInsert` slices its argument. -/
def chunksOf500 : List α → List (List α)
  | [] => []
  | x :: xs => (x :: xs).take 500 :: chunksOf500 ((x :: xs).drop 500)
termination_by l => l.length
decreasing_by
  simp only [List.length_drop, List.length_cons]
  omega

/-- `bulkInsert`: the records, in order, in sub-batches of 500, each a
multi-row `INSERT OR IGNORE` executed on the open transaction. -/
def bulkInsert (rows : List AddressRecord) (records : List AddressRecord) : List AddressRecord :=
  (chunksOf500 records).foldl (fun db chunk => chunk.foldl insertOrIgnore db) rows

/-- The loader state of `processGeoJSON`: the transactions committed
so far (each the record list bulk-inserted in it) and the in-memory
batch of the currently open transaction. -/
structure LoadState where
  committed : List (List AddressRecord)
  batch : List AddressRecord
deriving DecidableEq

def initialLoadState : LoadState := ⟨[], []⟩

/-- The loop body for one extracted record: append to the batch, then
flush (bulk insert + commit + fresh transaction + cleared batch) when
the batch has reached `batchSize` records or the 5-second ceiling on
the current transaction's age has elapsed — the latter is wall-clock
state, modelled as the oracle bit `timeUp` attached to the record. -/
def loadStep (s : LoadState) (x : AddressRecord × Bool) : LoadState :=
  if batchSize ≤ (s.batch ++ [x.1]).length ∨ x.2 = true then
    { committed := s.committed ++ [s.batch ++ [x.1]], batch := [] }
  else { committed := s.committed, batch := s.batch ++ [x.1] }

/-- The final partial batch is committed unconditionally once the
stream is exhausted (`if len(batch) > 0`). -/
def finalFlush (s : LoadState) : LoadState :=
  if 0 < s.batch.length then { committed := s.committed ++ [s.batch], batch := [] } else s

/-- The whole load: fold the loop body over the extracted stream, then
flush the final partial batch. -/
def loadRun (xs : List (AddressRecord × Bool)) : LoadState :=
  finalFlush (xs.foldl loadStep initialLoadState)

/-- The persisted rows after a list of committed transactions, each
applied with `INSERT OR IGNORE` semantics to the (initially empty)
`addresses` table. -/
def storeRows (batches : List (List AddressRecord)) : List AddressRecord :=
  batches.foldl bulkInsert []

/-- The full load pipeline on a feature list: extract (features that
fail the extractor's policy are skipped), window into transactions
(`timeUp i` tells whether the time ceiling had elapsed when record `i`
was appended), commit all, and read the primary relation. -/
def pipelineRows (features : List Feature) (timeUp : Nat → Bool) : List AddressRecord :=
  storeRows (loadRun (((features.filterMap extractAddressData).enum).map
    fun p => (p.2, timeUp p.1))).committed

/-! ### Concrete fixtures used by witnesses and counterexamples -/

/-- A Point feature with a street but no house number. -/
def featStreetOnly : Feature :=
  { type := "Feature"
    properties := JObj.cons "addr:street" (JValue.str "Hauptstraße") JObj.nil
    geometry :=
      { type := "Point"
        coordinates := some (JValue.arr (JArr.cons (JValue.num 13)
          (JArr.cons (JValue.num 52) JArr.nil))) } }

/-- A Polygon feature whose outer ring is `[[2,3],[4,5],[2,3]]`. -/
def featPolyOuterRing : Feature :=
  { type := "Feature"
    properties := JObj.cons "addr:street" (JValue.str "A") JObj.nil
    geometry :=
      { type := "Polygon"
        coordinates := some (JValue.arr (JArr.cons (JValue.arr
          (JArr.cons (JValue.arr (JArr.cons (JValue.num 2) (JArr.cons (JValue.num 3) JArr.nil)))
            (JArr.cons (JValue.arr (JArr.cons (JValue.num 4) (JArr.cons (JValue.num 5) JArr.nil)))
              (JArr.cons (JValue.arr (JArr.cons (JValue.num 2) (JArr.cons (JValue.num 3) JArr.nil)))
                JArr.nil))))
          JArr.nil)) } }

/-- A feature with a street and a geometry type outside the switch. -/
def featUnknownGeom : Feature :=
  { type := "Feature"
    properties := JObj.cons "addr:street" (JValue.str "A") JObj.nil
    geometry := { type := "GeometryCollection", coordinates := some (JValue.arr JArr.nil) } }

/-- A Point feature at exactly `(0, 0)`, with a full property set. -/
def featZeroPoint : Feature :=
  { type := "Feature"
    properties := JObj.cons "addr:street" (JValue.str "A")
      (JObj.cons "addr:housenumber" (JValue.str "1")
        (JObj.cons "addr:city" (JValue.str "B") JObj.nil))
    geometry :=
      { type := "Point"
        coordinates := some (JValue.arr (JArr.cons (JValue.num 0)
          (JArr.cons (JValue.num 0) JArr.nil))) } }

/-- A LineString feature whose coordinate payload is JSON `null`: the
unmarshal succeeds with an empty slice and the length guard trips. -/
def featBadLine : Feature :=
  { type := "Feature"
    properties := JObj.cons "addr:street" (JValue.str "A") JObj.nil
    geometry := { type := "LineString", coordinates := some JValue.null } }

/-- Two Point features that normalize to the same natural key but
carry different coordinates. -/
def featDupA : Feature :=
  { type := "Feature"
    properties := JObj.cons "addr:street" (JValue.str "Hauptstraße")
      (JObj.cons "addr:housenumber" (JValue.str "1")
        (JObj.cons "addr:city" (JValue.str "Berlin") JObj.nil))
    geometry :=
      { type := "Point"
        coordinates := some (JValue.arr (JArr.cons (JValue.num 13)
          (JArr.cons (JValue.num 52) JArr.nil))) } }

def featDupB : Feature :=
  { type := "Feature"
    properties := JObj.cons "addr:street" (JValue.str "Hauptstraße")
      (JObj.cons "addr:housenumber" (JValue.str "1")
        (JObj.cons "addr:city" (JValue.str "Berlin") JObj.nil))
    geometry :=
      { type := "Point"
        coordinates := some (JValue.arr (JArr.cons (JValue.num 14)
          (JArr.cons (JValue.num 53) JArr.nil))) } }

/-- The record `featDupA` extracts to. -/
def recDupA : AddressRecord := ⟨"Hauptstraße", "1", "Berlin", 13, 52⟩

/-- The record `featDupB` extracts to. -/
def recDupB : AddressRecord := ⟨"Hauptstraße", "1", "Berlin", 14, 53⟩

/-! ### Lemmas about the token-scan model -/

theorem tokensV_cons_not_close (v : JValue) :
    ∃ t ts, tokensV v = t :: ts ∧ isCloseTok t = false := by
  cases v <;> exact ⟨_, _, rfl, rfl⟩

theorem moreTok_tokensV (v : JValue) (rest : List JToken) :
    moreTok (tokensV v ++ rest) = true := by
  cases v <;> simp [tokensV, moreTok, isCloseTok]

mutual
theorem spanAux_tokensV : ∀ (v : JValue) (rest : List JToken) (d : Nat), 1 ≤ d →
    spanAux (tokensV v ++ rest) d = (spanAux rest d).map fun p => (tokensV v ++ p.1, p.2)
  | .null, rest, d, _ => by
    simp [tokensV, spanAux]
  | .jbool b, rest, d, _ => by
    simp [tokensV, spanAux]
  | .num q, rest, d, _ => by
    simp [tokensV, spanAux]
  | .str s, rest, d, _ => by
    simp [tokensV, spanAux]
  | .arr xs, rest, d, hd => by
    simp only [tokensV, List.cons_append, List.append_eq, List.append_assoc,
      List.singleton_append, spanAux]
    rw [spanAux_tokensL xs _ (d + 1) (by omega)]
    simp only [spanAux, Nat.add_sub_cancel]
    have hd2 : ¬(d + 1 ≤ 1) := by omega
    simp only [if_neg hd2]
    cases h : spanAux rest d <;> simp [h]
  | .obj fs, rest, d, hd => by
    simp only [tokensV, List.cons_append, List.append_eq, List.append_assoc,
      List.singleton_append, spanAux]
    rw [spanAux_tokensF fs _ (d + 1) (by omega)]
    simp only [spanAux, Nat.add_sub_cancel]
    have hd2 : ¬(d + 1 ≤ 1) := by omega
    simp only [if_neg hd2]
    cases h : spanAux rest d <;> simp [h]

theorem spanAux_tokensL : ∀ (xs : JArr) (rest : List JToken) (d : Nat), 1 ≤ d →
    spanAux (tokensL xs ++ rest) d = (spanAux rest d).map fun p => (tokensL xs ++ p.1, p.2)
  | .nil, rest, d, _ => by
    simp only [tokensL, List.nil_append]
    cases spanAux rest d <;> simp
  | .cons v vs, rest, d, hd => by
    simp only [tokensL, List.append_assoc]
    rw [spanAux_tokensV v _ d hd, spanAux_tokensL vs rest d hd]
    cases spanAux rest d <;> simp

theorem spanAux_tokensF : ∀ (fs : JObj) (rest : List JToken) (d : Nat), 1 ≤ d →
    spanAux (tokensF fs ++ rest) d = (spanAux rest d).map fun p => (tokensF fs ++ p.1, p.2)
  | .nil, rest, d, _ => by
    simp only [tokensF, List.nil_append]
    cases spanAux rest d <;> simp
  | .cons k v fs, rest, d, hd => by
    simp only [tokensF, List.cons_append, List.append_eq, List.append_assoc, spanAux]
    rw [spanAux_tokensV v _ d hd, spanAux_tokensF fs rest d hd]
    cases spanAux rest d <;> simp
end

theorem consumeOne_tokensV (v : JValue) (rest : List JToken) :
    consumeOne (tokensV v ++ rest) = some (tokensV v, rest) := by
  cases v with
  | null => simp [tokensV, consumeOne]
  | jbool b => simp [tokensV, consumeOne]
  | num q => simp [tokensV, consumeOne]
  | str s => simp [tokensV, consumeOne]
  | arr xs =>
    simp only [tokensV, List.cons_append, List.append_assoc, List.singleton_append, consumeOne]
    rw [spanAux_tokensL xs _ 1 (by omega)]
    simp [spanAux]
  | obj fs =>
    simp only [tokensV, List.cons_append, List.append_assoc, List.singleton_append, consumeOne]
    rw [spanAux_tokensF fs _ 1 (by omega)]
    simp [spanAux]

theorem innerAux_elems : ∀ (xs : JArr) (tail : List JToken) (fuel : Nat),
    (JArr.toList xs).length ≤ fuel →
    innerAux fuel (tokensL xs ++ (JToken.arrClose :: tail))
      = ((JArr.toList xs).map tokensV, JToken.arrClose :: tail)
  | .nil, tail, fuel, _ => by
    cases fuel <;> simp [tokensL, innerAux, moreTok, isCloseTok, JArr.toList]
  | .cons v vs, tail, fuel, h => by
    match fuel with
    | 0 => simp [JArr.toList, List.length_cons] at h
    | f + 1 =>
      have hlen : (JArr.toList vs).length ≤ f := by
        simpa [JArr.toList, Nat.succ_le_succ_iff] using h
      simp only [tokensL, List.append_assoc, innerAux]
      rw [if_pos (moreTok_tokensV v _), consumeOne_tokensV v _]
      simp only [innerAux_elems vs tail f hlen, JArr.toList, List.map_cons]

theorem outerAux_at_close (t : JToken) (rest : List JToken) (fuel : Nat)
    (h : isCloseTok t = true) : outerAux fuel (t :: rest) = [] := by
  cases fuel <;> simp [outerAux, moreTok, h]

theorem outerAux_features (elts : JArr) (tail : List JToken) :
    ∀ fuel : Nat, (JArr.toList elts).length + 1 ≤ fuel →
    outerAux fuel
        (JToken.str "features" :: JToken.arrOpen :: (tokensL elts ++ (JToken.arrClose :: tail)))
      = (JArr.toList elts).map tokensV := by
  intro fuel h
  match fuel with
  | 0 => omega
  | f + 1 =>
    simp only [outerAux, moreTok, isCloseTok, Bool.not_false, if_pos, if_true]
    rw [innerAux_elems elts tail f (by omega)]
    simp [outerAux_at_close JToken.arrClose tail f rfl]

/-- A decoded scalar (not a compound) value. -/
def isScalarValue : JValue → Bool
  | .arr _ => false
  | .obj _ => false
  | _ => true

theorem outerAux_skip :
    ∀ (pre : List (String × JValue)),
    (∀ p ∈ pre, isScalarValue p.2 = true ∧ p.1 ≠ "features" ∧ p.2 ≠ JValue.str "features") →
    ∀ (rest : List JToken) (fuel : Nat),
    outerAux (2 * pre.length + fuel) (tokensF (JObj.ofList pre) ++ rest) = outerAux fuel rest
  | [], _, rest, fuel => by simp [JObj.ofList, tokensF]
  | (k, v) :: ps, h, rest, fuel => by
    obtain ⟨hs, hk, hv⟩ := h (k, v) (List.mem_cons_self _ _)
    have hrec := outerAux_skip ps (fun p hp => h p (List.mem_cons_of_mem _ hp)) rest fuel
    have harith : 2 * ((k, v) :: ps).length + fuel = (2 * ps.length + fuel) + 1 + 1 := by
      simp [List.length_cons]; omega
    rw [harith]
    simp only [JObj.ofList, tokensF, List.cons_append, List.append_assoc]
    rw [show outerAux ((2 * ps.length + fuel) + 1 + 1)
          (JToken.str k :: (tokensV v ++ (tokensF (JObj.ofList ps) ++ rest)))
        = outerAux ((2 * ps.length + fuel) + 1)
          (tokensV v ++ (tokensF (JObj.ofList ps) ++ rest)) from by
      simp only [outerAux, moreTok, isCloseTok, Bool.not_false, if_true]
      rw [if_neg (by simp [hk])]]
    cases v with
    | null =>
      simp only [tokensV, List.singleton_append, outerAux, moreTok, isCloseTok,
        Bool.not_false, if_true]
      rw [if_neg (by simp)]
      exact hrec
    | jbool b =>
      simp only [tokensV, List.singleton_append, outerAux, moreTok, isCloseTok,
        Bool.not_false, if_true]
      rw [if_neg (by simp)]
      exact hrec
    | num q =>
      simp only [tokensV, List.singleton_append, outerAux, moreTok, isCloseTok,
        Bool.not_false, if_true]
      rw [if_neg (by simp)]
      exact hrec
    | str s =>
      simp only [tokensV, List.singleton_append, outerAux, moreTok, isCloseTok,
        Bool.not_false, if_true]
      rw [if_neg (by simpa using fun hcontra => hv (by rw [hcontra]))]
      exact hrec
    | arr xs => simp [isScalarValue] at hs
    | obj fs => simp [isScalarValue] at hs

theorem tokensF_ofList_append (a b : List (String × JValue)) :
    tokensF (JObj.ofList (a ++ b)) = tokensF (JObj.ofList a) ++ tokensF (JObj.ofList b) := by
  induction a with
  | nil => simp [JObj.ofList, tokensF]
  | cons p ps ih =>
    obtain ⟨k, v⟩ := p
    simp [JObj.ofList, tokensF, ih]

theorem tokensF_scalar_length (pre : List (String × JValue))
    (h : ∀ p ∈ pre, isScalarValue p.2 = true) :
    (tokensF (JObj.ofList pre)).length = 2 * pre.length := by
  induction pre with
  | nil => simp [JObj.ofList, tokensF]
  | cons p ps ih =>
    obtain ⟨k, v⟩ := p
    have hv := h (k, v) (List.mem_cons_self _ _)
    have hlen1 : (tokensV v).length = 1 := by
      cases v <;> simp_all [tokensV, isScalarValue]
    simp only [JObj.ofList, tokensF, List.length_cons, List.length_append, hlen1,
      ih (fun p hp => h p (List.mem_cons_of_mem _ hp))]
    omega

theorem toList_length_le_tokensL_length :
    ∀ xs : JArr, (JArr.toList xs).length ≤ (tokensL xs).length
  | .nil => by simp [JArr.toList, tokensL]
  | .cons v vs => by
    obtain ⟨t, ts, hv, -⟩ := tokensV_cons_not_close v
    have ih := toList_length_le_tokensL_length vs
    simp only [JArr.toList, tokensL, List.length_cons, List.length_append, hv]
    omega

/-! ### C4: the `features` scan -/

/-- A document on which the scan misbehaves: the value of the first
top-level member is the string `"features"`. -/
def docValueTrap : JValue :=
  JValue.obj (JObj.cons "name" (JValue.str "features")
    (JObj.cons "features" (JValue.arr (JArr.cons JValue.null JArr.nil)) JObj.nil))

/-- C4, counterexample. For a document with top-level members
`"name": "features"` and `"features": [null]` the claim says the decoder
selects exactly the one element of the `features` array (span
`[null]`). Instead the loop matches the string token `"features"` that
is the VALUE of the `name` member, treats the following token (the
real `features` key) as the skipped `[`, and then hands the whole
`features` array — `[`, `null`, `]` — to `Decode` as a single
"feature", which fails to unmarshal and is skipped: the claim's
selection is not what the code computes. -/
theorem goDecodeSpans_value_trap :
    goDecodeSpans docValueTrap = [[JToken.arrOpen, JToken.null, JToken.arrClose]] ∧
    specSelectedSpans docValueTrap = some [[JToken.null]] ∧
    goDecodeSpans docValueTrap ≠ [[JToken.null]] :=
  ⟨rfl, rfl, by decide⟩

/-- C4, amended. The scan loop matches ANY string token equal to
`"features"` — key or value, at any depth — and exits at the first
closing delimiter it peeks, so the claim holds only when every
top-level member before `features` has a scalar value, none of those
keys is `"features"`, and none of those string values is `"features"`.
Under that hypothesis the loop decodes exactly the elements of the
`features` array, in order, and ignores everything after the array
closes (trailing members `post` are never reached). -/
theorem goDecodeSpans_amended (pre post : List (String × JValue)) (elts : JArr)
    (hpre : ∀ p ∈ pre,
      isScalarValue p.2 = true ∧ p.1 ≠ "features" ∧ p.2 ≠ JValue.str "features") :
    goDecodeSpans (JValue.obj (JObj.ofList (pre ++ ("features", JValue.arr elts) :: post)))
      = (JArr.toList elts).map tokensV := by
  have hsc : ∀ p ∈ pre, isScalarValue p.2 = true := fun p hp => (hpre p hp).1
  simp only [goDecodeSpans, tokensV, tokensF_ofList_append, JObj.ofList, tokensF,
    List.cons_append, List.append_eq, List.append_assoc, List.singleton_append,
    List.nil_append]
  rw [List.length_append, tokensF_scalar_length pre hsc]
  rw [outerAux_skip pre hpre]
  have hlen := toList_length_le_tokensL_length elts
  rw [outerAux_features elts (tokensF (JObj.ofList post) ++ [JToken.objClose]) _ (by
    simp only [List.length_cons, List.length_append, List.length_singleton]
    omega)]

theorem goDecodeSpans_amended_witness :
    goDecodeSpans (JValue.obj (JObj.ofList
        ([("type", JValue.str "FeatureCollection")] ++
          ("features", JValue.arr (JArr.cons JValue.null JArr.nil)) :: [])))
      = [[JToken.null]] := by
  exact goDecodeSpans_amended [("type", JValue.str "FeatureCollection")] []
    (JArr.cons JValue.null JArr.nil) (by
      intro p hp
      simp only [List.mem_singleton] at hp
      subst hp
      exact ⟨rfl, by decide, by decide⟩)

/-! ### Extractor lemmas: the coordinate switch against the spec's
representative-vertex table -/

theorem pairOf_level (cs : List ℚ) :
    (if 2 ≤ cs.length then (cs.getD 0 0, cs.getD 1 0) else ((0 : ℚ), (0 : ℚ)))
      = (pairOf cs).getD (0, 0) := by
  match cs with
  | [] => rfl
  | [a] => rfl
  | a :: b :: t => simp [pairOf, List.getD]

theorem line_level (cs : List (List ℚ)) :
    (if 0 < cs.length ∧ 2 ≤ (cs.getD 0 []).length then
        ((cs.getD 0 []).getD 0 0, (cs.getD 0 []).getD 1 0)
      else ((0 : ℚ), (0 : ℚ)))
      = ((cs.head?).bind pairOf).getD (0, 0) := by
  match cs with
  | [] => simp
  | c :: t =>
    simp only [List.length_cons, List.getD_cons_zero, List.head?_cons, Option.some_bind,
      Nat.zero_lt_succ, true_and]
    exact pairOf_level c

theorem poly_level (cs : List (List (List ℚ))) :
    (if 0 < cs.length ∧ 0 < (cs.getD 0 []).length ∧
        2 ≤ ((cs.getD 0 []).getD 0 []).length then
        (((cs.getD 0 []).getD 0 []).getD 0 0, ((cs.getD 0 []).getD 0 []).getD 1 0)
      else ((0 : ℚ), (0 : ℚ)))
      = (((cs.head?).bind List.head?).bind pairOf).getD (0, 0) := by
  match cs with
  | [] => simp
  | c :: t =>
    simp only [List.length_cons, List.getD_cons_zero, List.head?_cons, Option.some_bind,
      Nat.zero_lt_succ, true_and]
    exact line_level c

theorem multipoly_level (cs : List (List (List (List ℚ)))) :
    (if 0 < cs.length ∧ 0 < (cs.getD 0 []).length ∧
        0 < ((cs.getD 0 []).getD 0 []).length ∧
        2 ≤ (((cs.getD 0 []).getD 0 []).getD 0 []).length then
        ((((cs.getD 0 []).getD 0 []).getD 0 []).getD 0 0,
         (((cs.getD 0 []).getD 0 []).getD 0 []).getD 1 0)
      else ((0 : ℚ), (0 : ℚ)))
      = ((((cs.head?).bind List.head?).bind List.head?).bind pairOf).getD (0, 0) := by
  match cs with
  | [] => simp
  | c :: t =>
    simp only [List.length_cons, List.getD_cons_zero, List.head?_cons, Option.some_bind,
      Nat.zero_lt_succ, true_and]
    exact poly_level c

/-- On the four known geometry types the switch returns exactly the
spec's representative vertex when it exists, and `(0, 0)` when it does
not. -/
theorem coordinateSwitch_known (g : Geometry) (h : knownGeometryType g.type = true) :
    coordinateSwitch g = some ((specRepresentativeVertex g).getD (0, 0)) := by
  obtain ⟨t, coords⟩ := g
  simp only [knownGeometryType, Bool.or_eq_true, decide_eq_true_eq] at h
  obtain ((h | h) | h) | h := h <;> subst h
  · simp only [coordinateSwitch, specRepresentativeVertex]
    cases ho : coords.bind unmarshalFloats with
    | none => rfl
    | some cs => exact congrArg some (pairOf_level cs)
  · simp only [coordinateSwitch, specRepresentativeVertex]
    cases ho : coords.bind unmarshalFloats2 with
    | none => rfl
    | some cs => exact congrArg some (line_level cs)
  · simp only [coordinateSwitch, specRepresentativeVertex]
    cases ho : coords.bind unmarshalFloats3 with
    | none => rfl
    | some cs => exact congrArg some (poly_level cs)
  · simp only [coordinateSwitch, specRepresentativeVertex]
    cases ho : coords.bind unmarshalFloats4 with
    | none => rfl
    | some cs => exact congrArg some (multipoly_level cs)

/-- Any other geometry type takes the switch's default branch. -/
theorem coordinateSwitch_unknown (g : Geometry) (h : knownGeometryType g.type = false) :
    coordinateSwitch g = none := by
  unfold coordinateSwitch
  split <;> simp_all [knownGeometryType]

theorem specVertex_unknown (g : Geometry) (h : knownGeometryType g.type = false) :
    specRepresentativeVertex g = none := by
  unfold specRepresentativeVertex
  split <;> simp_all [knownGeometryType]

theorem specVertex_known (g : Geometry) (v : ℚ × ℚ)
    (h : specRepresentativeVertex g = some v) : knownGeometryType g.type = true := by
  cases hk : knownGeometryType g.type
  · rw [specVertex_unknown g hk] at h
    cases h
  · rfl

/-- Structural characterization of a successful extraction. -/
theorem extract_eq_some_iff (f : Feature) (r : AddressRecord) :
    extractAddressData f = some r ↔
      ∃ street lon lat,
        f.properties.get "addr:street" = some street ∧
        coordinateSwitch f.geometry = some (lon, lat) ∧
        ¬(lon = 0 ∧ lat = 0) ∧
        r = ⟨goFormatValue street, goFormatValue (houseNumberValue f),
             goFormatValue (cityValue f), lon, lat⟩ := by
  simp only [extractAddressData]
  cases hs : f.properties.get "addr:street" with
  | none => simp
  | some street =>
    cases hc : coordinateSwitch f.geometry with
    | none => simp
    | some p =>
      obtain ⟨lon, lat⟩ := p
      by_cases hz : lon = 0 ∧ lat = 0
      · simp only [if_pos hz, Option.some.injEq, Prod.mk.injEq]
        constructor
        · intro h
          cases h
        · rintro ⟨s', lon', lat', -, ⟨rfl, rfl⟩, hz', -⟩
          exact absurd hz hz'
      · simp only [if_neg hz, Option.some.injEq, Prod.mk.injEq]
        constructor
        · intro h
          exact ⟨street, lon, lat, rfl, ⟨rfl, rfl⟩, hz, h.symm⟩
        · rintro ⟨s', lon', lat', rfl, ⟨rfl, rfl⟩, hz', rfl⟩
          rfl

theorem extract_none_of_zero (f : Feature)
    (h : coordinateSwitch f.geometry = some (0, 0)) : extractAddressData f = none := by
  simp only [extractAddressData, h]
  cases hs : f.properties.get "addr:street" <;> simp

theorem extract_none_of_coordSwitch_none (f : Feature)
    (h : coordinateSwitch f.geometry = none) : extractAddressData f = none := by
  simp only [extractAddressData, h]
  cases hs : f.properties.get "addr:street" <;> simp

/-! ### C2: missing house number -/

/-- C2, counterexample. `featStreetOnly` has a street but no
`addr:housenumber`; extraction keeps the feature, but the stored
house-number field is Go's rendering of the nil interface value,
`"<nil>"`, not the empty string the claim asserts. -/
theorem housenumber_absent_not_empty :
    (extractAddressData featStreetOnly).map (fun r => r.houseNumber) = some "<nil>" ∧
    (extractAddressData featStreetOnly).map (fun r => r.houseNumber) ≠ some "" :=
  ⟨rfl, by decide⟩

/-- C2, amended. A feature with a street but no house-number property
is never excluded on account of the missing house number — whether a
feature is excluded depends only on street presence and the coordinate
switch — and the resulting record's house-number field is the string
`"<nil>"` (Go's `%v` rendering of the absent value), not the empty
string. -/
theorem housenumber_absent_gives_nil_string :
    (∀ f : Feature, (extractAddressData f).isSome ↔
      ((f.properties.get "addr:street").isSome ∧
        ∃ p : ℚ × ℚ, coordinateSwitch f.geometry = some p ∧ ¬(p.1 = 0 ∧ p.2 = 0))) ∧
    (∀ (f : Feature) (r : AddressRecord), extractAddressData f = some r →
      f.properties.get "addr:housenumber" = none → r.houseNumber = "<nil>") := by
  constructor
  · intro f
    constructor
    · intro h
      obtain ⟨r, hr⟩ := Option.isSome_iff_exists.mp h
      obtain ⟨street, lon, lat, hs, hc, hz, -⟩ := (extract_eq_some_iff f r).mp hr
      exact ⟨by simp [hs], ⟨(lon, lat), hc, hz⟩⟩
    · rintro ⟨hs, ⟨p, hc, hz⟩⟩
      obtain ⟨street, hstreet⟩ := Option.isSome_iff_exists.mp hs
      refine Option.isSome_iff_exists.mpr
        ⟨⟨goFormatValue street, goFormatValue (houseNumberValue f),
          goFormatValue (cityValue f), p.1, p.2⟩, ?_⟩
      exact (extract_eq_some_iff f _).mpr ⟨street, p.1, p.2, hstreet, by simpa using hc, hz, rfl⟩
  · intro f r hr habsent
    obtain ⟨street, lon, lat, -, -, -, rfl⟩ := (extract_eq_some_iff f r).mp hr
    simp [houseNumberValue, habsent, goFormatValue]

theorem housenumber_absent_gives_nil_string_witness :
    AddressRecord.houseNumber
        ⟨"Hauptstraße", "<nil>", "", 13, 52⟩ = "<nil>" :=
  housenumber_absent_gives_nil_string.2 featStreetOnly
    ⟨"Hauptstraße", "<nil>", "", 13, 52⟩ (by decide) (by decide)

/-! ### C5: the representative vertex -/

/-- C5. For a feature with a street whose payload yields the spec's
representative vertex (the point itself / first vertex / first vertex
of the outer ring / first vertex of the outer ring of the first
polygon) and that vertex is not the `(0, 0)` sentinel, extraction
succeeds and stores exactly that vertex as `(lon, lat)`; every feature
of a geometry type outside the four known ones is excluded. -/
theorem representative_vertex_extraction :
    (∀ (f : Feature) (v : ℚ × ℚ), (f.properties.get "addr:street").isSome →
        specRepresentativeVertex f.geometry = some v → v ≠ (0, 0) →
        ∃ r, extractAddressData f = some r ∧ (r.lon, r.lat) = v) ∧
    (∀ f : Feature, knownGeometryType f.geometry.type = false →
        extractAddressData f = none) := by
  constructor
  · intro f v hs hv hvz
    have hk := specVertex_known f.geometry v hv
    have hc : coordinateSwitch f.geometry = some v := by
      rw [coordinateSwitch_known f.geometry hk, hv]
      rfl
    obtain ⟨street, hstreet⟩ := Option.isSome_iff_exists.mp hs
    obtain ⟨lon, lat⟩ := v
    have hz : ¬(lon = 0 ∧ lat = 0) := by
      rintro ⟨rfl, rfl⟩
      exact hvz rfl
    exact ⟨⟨goFormatValue street, goFormatValue (houseNumberValue f),
        goFormatValue (cityValue f), lon, lat⟩,
      (extract_eq_some_iff f _).mpr ⟨street, lon, lat, hstreet, hc, hz, rfl⟩, rfl⟩
  · intro f hk
    exact extract_none_of_coordSwitch_none f (coordinateSwitch_unknown f.geometry hk)

theorem representative_vertex_extraction_witness :
    (∃ r, extractAddressData featPolyOuterRing = some r ∧ (r.lon, r.lat) = ((2 : ℚ), 3)) ∧
    extractAddressData featUnknownGeom = none :=
  ⟨representative_vertex_extraction.1 featPolyOuterRing (2, 3) (by decide) (by decide)
      (by decide),
    representative_vertex_extraction.2 featUnknownGeom (by decide)⟩

/-! ### C6: the zero-coordinate sentinel -/

/-- C6. A feature whose representative coordinate is exactly `(0, 0)`
is excluded, whatever its properties: the switch leaves `(0, 0)` in
`lon`, `lat` and the sentinel check rejects it (a feature without a
street is already excluded by the street check). -/
theorem zero_vertex_excluded (f : Feature)
    (h : specRepresentativeVertex f.geometry = some (0, 0)) :
    extractAddressData f = none := by
  have hk := specVertex_known f.geometry (0, 0) h
  have hc : coordinateSwitch f.geometry = some (0, 0) := by
    rw [coordinateSwitch_known f.geometry hk, h]
    rfl
  exact extract_none_of_zero f hc

theorem zero_vertex_excluded_witness : extractAddressData featZeroPoint = none :=
  zero_vertex_excluded featZeroPoint (by decide)

/-! ### C10: guarded coordinate access -/

/-- C10. For a feature of a known geometry type whose payload does not
yield a complete representative vertex — the unmarshal fails, the
nesting is empty, or the first coordinate pair has fewer than two
numbers — every length guard fails, the coordinate stays at the
`(0, 0)` initial value, and the feature is excluded through the
zero-coordinate check; no access is attempted out of bounds (the model
is total) and no error is raised. -/
theorem short_payload_excluded (f : Feature)
    (hk : knownGeometryType f.geometry.type = true)
    (h : specRepresentativeVertex f.geometry = none) :
    coordinateSwitch f.geometry = some (0, 0) ∧ extractAddressData f = none := by
  have hc : coordinateSwitch f.geometry = some (0, 0) := by
    rw [coordinateSwitch_known f.geometry hk, h]
    rfl
  exact ⟨hc, extract_none_of_zero f hc⟩

theorem short_payload_excluded_witness :
    coordinateSwitch featBadLine.geometry = some (0, 0) ∧
    extractAddressData featBadLine = none :=
  short_payload_excluded featBadLine (by decide) (by decide)

/-! ### C3: the FTS tokenizer configuration -/

/-- C3, code bug. The claim (with spec section 4.4) says the hyphen is
token-internal so that `"Haupt-Straße"` is indexed as one token, and
that is plainly what the source means by `tokenchars '\x2d'` — but the
configuration travels through a Go raw (backtick) string and an SQLite
string literal, neither of which processes backslash escapes, so the
extra token characters the program registers are backslash, `x`, `2`
and `d`. The hyphen stays a separator and `"Haupt-Straße"` is indexed
as the two tokens `"haupt"` and `"straße"` (case folded; diacritics
are preserved — `remove_diacritics 0` does hold). -/
theorem fts_hyphen_splits_token :
    ftsTokenchars = ['\\', 'x', '2', 'd'] ∧
    ('-' ∉ ftsTokenchars) ∧
    ftsRemoveDiacritics = false ∧
    u61Tokenize "Haupt-Straße" = ["haupt", "straße"] :=
  ⟨rfl, by decide, rfl, by decide⟩

/-! ### Batch loader lemmas -/

theorem loadStep_bound (s : LoadState) (x : AddressRecord × Bool)
    (hc : ∀ b ∈ s.committed, b.length ≤ batchSize) (hb : s.batch.length < batchSize) :
    (∀ b ∈ (loadStep s x).committed, b.length ≤ batchSize) ∧
    (loadStep s x).batch.length < batchSize := by
  unfold loadStep
  split
  · refine ⟨?_, by simp [batchSize]⟩
    intro b hbm
    rcases List.mem_append.mp hbm with h | h
    · exact hc b h
    · rw [List.mem_singleton.mp h]
      simp only [List.length_append, List.length_singleton]
      omega
  · rename_i hcond
    rw [not_or] at hcond
    refine ⟨hc, ?_⟩
    have := hcond.1
    simp only [List.length_append, List.length_singleton] at this ⊢
    omega

theorem loadLoop_bound (xs : List (AddressRecord × Bool)) :
    ∀ s : LoadState, (∀ b ∈ s.committed, b.length ≤ batchSize) →
    s.batch.length < batchSize →
    (∀ b ∈ (xs.foldl loadStep s).committed, b.length ≤ batchSize) ∧
    (xs.foldl loadStep s).batch.length < batchSize := by
  induction xs with
  | nil => exact fun s hc hb => ⟨hc, hb⟩
  | cons x xs ih =>
    intro s hc hb
    have h := loadStep_bound s x hc hb
    exact ih (loadStep s x) h.1 h.2

theorem loadLoop_join (xs : List (AddressRecord × Bool)) :
    ∀ s : LoadState,
    ((xs.foldl loadStep s).committed).flatten ++ (xs.foldl loadStep s).batch
      = s.committed.flatten ++ s.batch ++ xs.map Prod.fst := by
  induction xs with
  | nil => simp
  | cons x xs ih =>
    intro s
    simp only [List.foldl_cons, List.map_cons]
    rw [ih (loadStep s x)]
    simp only [loadStep]
    split <;> simp

theorem loadRun_join (xs : List (AddressRecord × Bool)) :
    ((loadRun xs).committed).flatten = xs.map Prod.fst := by
  have h := loadLoop_join xs initialLoadState
  rw [show initialLoadState.committed = [] from rfl,
    show initialLoadState.batch = [] from rfl] at h
  simp only [List.flatten_nil, List.nil_append] at h
  unfold loadRun finalFlush
  split
  · simp only [List.flatten_append, List.flatten_cons, List.flatten_nil, List.append_nil]
    exact h
  · rename_i hlen
    have hnil : (xs.foldl loadStep initialLoadState).batch = [] :=
      List.length_eq_zero.mp (by omega)
    rw [hnil, List.append_nil] at h
    exact h

theorem chunksOf500_foldl {α β : Type} (f : β → α → β) :
    ∀ (l : List α) (b : β),
    (chunksOf500 l).foldl (fun db chunk => chunk.foldl f db) b = l.foldl f b
  | [], b => by rw [chunksOf500]; rfl
  | x :: xs, b => by
    rw [chunksOf500, List.foldl_cons,
      chunksOf500_foldl f ((x :: xs).drop 500) (((x :: xs).take 500).foldl f b),
      ← List.foldl_append, List.take_append_drop]
termination_by l => l.length
decreasing_by
  simp only [List.length_drop, List.length_cons]
  omega

theorem bulkInsert_eq_foldl (rows records : List AddressRecord) :
    bulkInsert rows records = records.foldl insertOrIgnore rows :=
  chunksOf500_foldl insertOrIgnore records rows

theorem storeRows_foldl (batches : List (List AddressRecord)) :
    ∀ init : List AddressRecord,
    batches.foldl bulkInsert init = (batches.flatten).foldl insertOrIgnore init := by
  induction batches with
  | nil => intro init; rfl
  | cons b bs ih =>
    intro init
    simp only [List.foldl_cons, List.flatten_cons]
    rw [ih (bulkInsert init b), bulkInsert_eq_foldl, List.foldl_append]

theorem insertOrIgnore_count_le (rows : List AddressRecord) (r : AddressRecord)
    (k : String × String × String)
    (h : (rows.filter fun x => naturalKey x = k).length ≤ 1) :
    ((insertOrIgnore rows r).filter fun x => naturalKey x = k).length ≤ 1 := by
  unfold insertOrIgnore
  split
  · exact h
  · rename_i hany
    rw [List.filter_append]
    by_cases hk : naturalKey r = k
    · have hnil : rows.filter (fun x => naturalKey x = k) = [] := by
        rw [List.filter_eq_nil_iff]
        intro x hx
        simp only [decide_eq_true_eq]
        intro hxk
        exact hany (List.any_eq_true.mpr ⟨x, hx, by simp [hxk, hk]⟩)
      simp [hnil, hk]
    · simp [hk, h]

theorem foldl_insertOrIgnore_count_le (l : List AddressRecord)
    (k : String × String × String) :
    ∀ rows, ((rows.filter fun x => naturalKey x = k).length ≤ 1) →
    (((l.foldl insertOrIgnore rows).filter fun x => naturalKey x = k).length ≤ 1) := by
  induction l with
  | nil => exact fun rows h => h
  | cons r l ih =>
    intro rows h
    exact ih (insertOrIgnore rows r) (insertOrIgnore_count_le rows r k h)

theorem foldl_insertOrIgnore_key_mem (l : List AddressRecord)
    (k : String × String × String) :
    ∀ rows, ((∃ x ∈ rows, naturalKey x = k) ∨ (∃ r ∈ l, naturalKey r = k)) →
    ∃ x ∈ l.foldl insertOrIgnore rows, naturalKey x = k := by
  induction l with
  | nil =>
    intro rows h
    simpa using h.resolve_right (by simp)
  | cons r l ih =>
    intro rows h
    apply ih (insertOrIgnore rows r)
    rcases h with ⟨x, hx, hxk⟩ | ⟨y, hy, hyk⟩
    · left
      refine ⟨x, ?_, hxk⟩
      unfold insertOrIgnore
      split
      · exact hx
      · exact List.mem_append_left _ hx
    · rcases List.mem_cons.mp hy with rfl | hyl
      · left
        unfold insertOrIgnore
        split
        · rename_i hany
          obtain ⟨x, hx, hxk⟩ := List.any_eq_true.mp hany
          exact ⟨x, hx, by simp only [decide_eq_true_eq] at hxk; rw [hxk, hyk]⟩
        · exact ⟨y, List.mem_append_right _ (List.mem_singleton.mpr rfl), hyk⟩
      · right
        exact ⟨y, hyl, hyk⟩

/-! ### C8: committed transactions are bounded -/

/-- C8. Whatever the input stream and the timing of the 5-second
ceiling, no committed transaction of the loader holds more than
`batchSize = 500000` records: the loop flushes the moment the batch
reaches the maximum (or earlier, on the time trigger), so the open
batch always stays strictly below the maximum and every commit —
including the final partial flush — carries at most `batchSize`
records. -/
theorem committed_batch_bounded (xs : List (AddressRecord × Bool))
    (b : List AddressRecord) (hb : b ∈ (loadRun xs).committed) :
    b.length ≤ batchSize := by
  have h := loadLoop_bound xs initialLoadState (by simp [initialLoadState])
    (by simp [initialLoadState, batchSize])
  unfold loadRun finalFlush at hb
  split at hb
  · rcases List.mem_append.mp hb with hm | hm
    · exact h.1 b hm
    · rw [List.mem_singleton.mp hm]
      omega
  · exact h.1 b hb

theorem committed_batch_bounded_witness : [recDupA].length ≤ batchSize :=
  committed_batch_bounded [(recDupA, true)] [recDupA] (by decide)

/-! ### C7: idempotence under duplicate natural keys -/

/-- C7. If two features of the input both extract to records with the
same `(street, house_number, city)` triple, the full pipeline — batch
windowing (under any flush timing), `INSERT OR IGNORE` bulk inserts,
commit of every transaction — leaves exactly one row with that triple
in the primary relation; the duplicate is absorbed by the uniqueness
constraint, no error path exists in the model. -/
theorem duplicate_key_single_row (features : List Feature) (timeUp : Nat → Bool)
    (f1 f2 : Feature) (r1 r2 : AddressRecord)
    (h1 : f1 ∈ features) (h2 : f2 ∈ features)
    (e1 : extractAddressData f1 = some r1) (e2 : extractAddressData f2 = some r2)
    (hk : naturalKey r1 = naturalKey r2) :
    ((pipelineRows features timeUp).filter
        fun x => naturalKey x = naturalKey r1).length = 1 := by
  unfold pipelineRows storeRows
  rw [storeRows_foldl, loadRun_join]
  have hmap : ((((features.filterMap extractAddressData).enum).map
      fun p => (p.2, timeUp p.1)).map Prod.fst) = features.filterMap extractAddressData := by
    rw [List.map_map]
    exact List.enum_map_snd _
  rw [hmap]
  have hr1 : r1 ∈ features.filterMap extractAddressData :=
    List.mem_filterMap.mpr ⟨f1, h1, e1⟩
  have hle := foldl_insertOrIgnore_count_le (features.filterMap extractAddressData)
    (naturalKey r1) [] (by simp)
  have hmem := foldl_insertOrIgnore_key_mem (features.filterMap extractAddressData)
    (naturalKey r1) [] (Or.inr ⟨r1, hr1, rfl⟩)
  obtain ⟨x, hx, hxk⟩ := hmem
  have hmemf : x ∈ ((features.filterMap extractAddressData).foldl insertOrIgnore []).filter
      (fun y => naturalKey y = naturalKey r1) :=
    List.mem_filter.mpr ⟨hx, by simpa using hxk⟩
  have hpos := List.length_pos_of_mem hmemf
  omega

theorem duplicate_key_single_row_witness :
    ((pipelineRows [featDupA, featDupB] (fun _ => false)).filter
        fun x => naturalKey x = naturalKey recDupA).length = 1 :=
  duplicate_key_single_row [featDupA, featDupB] (fun _ => false) featDupA featDupB
    recDupA recDupB (by decide) (by decide) (by decide) (by decide) (by decide)

/-! ### C9: the search contract -/

/-- C9. For every query (and any rank assignment, standing for
SQLite's bm25 scoring): the result sequence has at most
`searchLimit = 5` elements; it is ordered by rank ascending (FTS5
ranks are more negative for better matches, so the best match comes
first); every result carries a primary record of the store that
matches the query, the three per-field highlighted texts with the
`<b>`/`</b>` marker pair around matched tokens, and its rank; and when
nothing matches the result is the empty sequence, not an error (the
model is total). -/
theorem search_contract (rankOf : AddressRecord → ℚ) (db : List AddressRecord)
    (q : String) :
    (searchAddresses rankOf db q).length ≤ searchLimit ∧
    List.Sorted hitLE (searchAddresses rankOf db q) ∧
    (∀ h ∈ searchAddresses rankOf db q,
      h.record ∈ db ∧ matchesQuery q h.record = true ∧
      h.streetMatch = highlightField (u61Tokenize q) h.record.street ∧
      h.houseNumberMatch = highlightField (u61Tokenize q) h.record.houseNumber ∧
      h.cityMatch = highlightField (u61Tokenize q) h.record.city ∧
      h.rank = rankOf h.record) ∧
    (db.filter (matchesQuery q) = [] → searchAddresses rankOf db q = []) := by
  refine ⟨?_, ?_, ?_, ?_⟩
  · unfold searchAddresses
    rw [List.length_take]
    exact min_le_left _ _
  · exact List.Pairwise.sublist (List.take_sublist _ _)
      (List.sorted_insertionSort hitLE _)
  · intro h hm
    unfold searchAddresses at hm
    have hm1 : h ∈ ((db.filter (matchesQuery q)).map (mkHit rankOf q)).insertionSort hitLE :=
      List.take_subset _ _ hm
    have hm2 : h ∈ (db.filter (matchesQuery q)).map (mkHit rankOf q) :=
      ((List.perm_insertionSort hitLE _).mem_iff).mp hm1
    obtain ⟨r, hr, rfl⟩ := List.mem_map.mp hm2
    have hrdb : r ∈ db := List.mem_of_mem_filter hr
    have hrq : matchesQuery q r = true := List.of_mem_filter hr
    exact ⟨hrdb, hrq, rfl, rfl, rfl, rfl⟩
  · intro hf
    unfold searchAddresses
    rw [hf]
    rfl

theorem search_contract_witness :
    (searchAddresses (fun _ => 0) [recDupA] "Berlin").length ≤ searchLimit ∧
    ((mkHit (fun _ => 0) "Berlin" recDupA).record ∈ [recDupA] ∧
      matchesQuery "Berlin" (mkHit (fun _ => 0) "Berlin" recDupA).record = true ∧
      (mkHit (fun _ => 0) "Berlin" recDupA).streetMatch
        = highlightField (u61Tokenize "Berlin")
            (mkHit (fun _ => 0) "Berlin" recDupA).record.street ∧
      (mkHit (fun _ => 0) "Berlin" recDupA).houseNumberMatch
        = highlightField (u61Tokenize "Berlin")
            (mkHit (fun _ => 0) "Berlin" recDupA).record.houseNumber ∧
      (mkHit (fun _ => 0) "Berlin" recDupA).cityMatch
        = highlightField (u61Tokenize "Berlin")
            (mkHit (fun _ => 0) "Berlin" recDupA).record.city ∧
      (mkHit (fun _ => 0) "Berlin" recDupA).rank
        = (fun _ => (0 : ℚ)) (mkHit (fun _ => 0) "Berlin" recDupA).record) :=
  ⟨(search_contract (fun _ => 0) [recDupA] "Berlin").1,
    (search_contract (fun _ => 0) [recDupA] "Berlin").2.2.1
      (mkHit (fun _ => 0) "Berlin" recDupA) (by decide)⟩

end OsmExtract
